import Mathlib

/-!
Verification development for the Lease Abstractor application
(`src/index.tsx`).  The definitions below are a shallow embedding of the
core functions of the source file: the per-page text acquirer
(`extractTextFromPdf`), the document assembly performed by
`handleGenerateAbstract`, the file-selection handlers (`handleFileChange`,
`handleRemoveFile`), the schema-segmented extraction scheduler (the section
loop of `handleGenerateAbstract`), and the Q&A handler
(`handleAskQuestion`).

Modelling conventions:
* JavaScript strings are modelled by `String`; `String.prototype.trim` is
  modelled by `jsTrim` (whitespace stripping on both ends) and
  `localeCompare`-based sorting by code-point lexicographic order
  (`charListLe`), which agrees with `localeCompare` on the plain ASCII
  names used in the counterexamples.
* The generation backend and `JSON.parse` are external; a response is
  modelled by its observable outcome (`Resp`): blank text, unparsable
  text, or a parsed JSON object given as a key/value list.
* Asynchronous awaits are sequential in the source (one flow of control),
  so the model is a plain sequential function.
-/

namespace LeaseAbs

/-! ### JS string helpers (`toTitleCase`, `trim`) -/

/-- Model of `String.prototype.trim`: strip whitespace from both ends. -/
def jsTrim (s : String) : String :=
  String.mk (((s.data.dropWhile Char.isWhitespace).reverse.dropWhile
      Char.isWhitespace).reverse)

/-- The first regex pass of `toTitleCase`, which inserts a space
before every capital letter. -/
def spaceCaps : List Char → List Char
  | [] => []
  | c :: cs => if c.isUpper then ' ' :: c :: spaceCaps cs else c :: spaceCaps cs

/-- `toTitleCase` from `src/index.tsx` line 604: insert a space before each
capital letter, then uppercase the first character of the result. -/
def toTitleCase (s : String) : String :=
  if s = "" then ""
  else
    match spaceCaps s.data with
    | [] => ""
    | c :: cs => String.mk (c.toUpper :: cs)

/-! ### Page Text Acquirer (`extractTextFromPdf`, lines 1014-1077) -/

/-- One PDF page as the acquirer observes it: the native text items
(`textContent.items`, each contributing its `str`), the text OCR would
return for the rendered bitmap, and failure flags for the two awaited
suspension points (`getPage`/`getTextContent` and the render/OCR path). -/
structure Page where
  items : List String
  ocrText : String
  readFails : Bool
  ocrFails : Bool
deriving DecidableEq

/-- The native text items joined with a single-space separator
(line 1039). -/
def nativeText (p : Page) : String := String.intercalate " " p.items

/-- The dual-threshold heuristic of line 1042:
`textContent.items.length < 15 && pageText.trim().length < 150`. -/
def needsOcr (p : Page) : Bool :=
  decide (p.items.length < 15) && decide ((jsTrim (nativeText p)).length < 150)

/-- Observable resource events of the per-document processing function:
worker creation (line 1047), one OCR run on a page rendered at the given
scale (lines 1050-1063, scale `2`), and worker termination (line 1072). -/
inductive PdfEvent where
  | createWorker
  | ocr (pageIdx : Nat) (scale : Nat)
  | terminateWorker
deriving DecidableEq

/-- The page loop of `extractTextFromPdf` (lines 1035-1069).  State: the
current page index, whether a worker exists (`worker !== null`), and the
accumulated `fullText`.  Returns the final worker state, the emitted
resource events, and the result (`fullText` or the thrown error). -/
def runPages : List Page → Nat → Bool → String →
    Bool × List PdfEvent × Except String String
  | [], _, w, acc => (w, [], Except.ok acc)
  | p :: rest, i, w, acc =>
    if p.readFails then (w, [], Except.error "page read failed")
    else if needsOcr p then
      let evs0 : List PdfEvent := if w then [] else [PdfEvent.createWorker]
      if p.ocrFails then (true, evs0, Except.error "render or OCR failed")
      else
        let r := runPages rest (i + 1) true (acc ++ p.ocrText ++ "\n\n")
        (r.1, evs0 ++ PdfEvent.ocr i 2 :: r.2.1, r.2.2)
    else
      let r := runPages rest (i + 1) w (acc ++ nativeText p ++ "\n\n")
      (r.1, r.2.1, r.2.2)

/-- `extractTextFromPdf` for one document: run the page loop from a null
worker, then the `finally` block terminates the worker when one exists
(lines 1070-1074), on the success path and on every failure path. -/
def extractTextFromPdf (pages : List Page) :
    List PdfEvent × Except String String :=
  let r := runPages pages 0 false ""
  (r.2.1 ++ (if r.1 then [PdfEvent.terminateWorker] else []), r.2.2)

/-- The resource events of one document's processing. -/
def pdfEvents (pages : List Page) : List PdfEvent := (extractTextFromPdf pages).1

/-- The text result of one document's processing. -/
def pdfResult (pages : List Page) : Except String String :=
  (extractTextFromPdf pages).2

/-- The contribution of one page to `fullText`: the OCR text when the page
fails the dual threshold, the native text layer verbatim otherwise, each
followed by the page-break marker `"\n\n"` (lines 1064, 1066). -/
def pageContrib (p : Page) : String :=
  (if needsOcr p then p.ocrText else nativeText p) ++ "\n\n"

/-- The full text of one document on a failure-free run. -/
def textOf (pages : List Page) : String := String.join (pages.map pageContrib)

/-- Number of `createWorker` events in an event list. -/
def countCreate (evs : List PdfEvent) : Nat :=
  (evs.filter (fun e => decide (e = PdfEvent.createWorker))).length

/-- Number of `terminateWorker` events in an event list. -/
def countTerminate (evs : List PdfEvent) : Nat :=
  (evs.filter (fun e => decide (e = PdfEvent.terminateWorker))).length

/-- The OCR invocations, in order, as pairs (page index, render scale). -/
def ocrEvents (evs : List PdfEvent) : List (Nat × Nat) :=
  evs.filterMap (fun e =>
    match e with
    | PdfEvent.ocr i s => some (i, s)
    | _ => none)

/-! ### Extraction Scheduler (section loop of `handleGenerateAbstract`,
lines 1148-1239) -/

/-- A JSON value as returned by the generation backend after parsing. -/
inductive Val where
  | str (s : String)
  | arr (vs : List Val)
  | obj (fields : List (String × Val))

/-- The accumulating record (`fullAbstractData` / `leaseNotesData`): a
JavaScript object modelled as a key/value list in insertion order. -/
abbrev JRec := List (String × Val)

/-- The top-level keys of a record, in insertion order. -/
def keysOf (r : JRec) : List String := r.map Prod.fst

/-- Look a key up in a record. -/
def lookupRec (r : JRec) (k : String) : Option Val :=
  (r.find? (fun kv => decide (kv.1 = k))).map Prod.snd

/-- JavaScript property assignment `target[k] = v`: overwrite in place if
the key exists, else append. -/
def assignKey (r : JRec) (k : String) (v : Val) : JRec :=
  if r.any (fun kv => decide (kv.1 = k)) then
    r.map (fun kv => if kv.1 = k then (k, v) else kv)
  else r ++ [(k, v)]

/-- `Object.assign(target, frag)`: assign every top-level key of `frag`. -/
def assignObj (r : JRec) (frag : JRec) : JRec :=
  frag.foldl (fun acc kv => assignKey acc kv.1 kv.2) r

/-- The observable outcome of one generation request: the response text is
empty or missing (no text at all, or only whitespace), the
text fails `JSON.parse`, or it parses to the given JSON object. -/
inductive Resp where
  | empty
  | malformed
  | parsed (frag : JRec)

/-- An extraction unit: a whole top-level section, or one clause of the
`leaseNotes` section (which the loop expands per clause). -/
inductive SUnit where
  | sec (key : String)
  | note (key : String)
deriving DecidableEq

/-- The top-level section keys of `leaseAbstractSchema.properties`, in
declaration order (lines 666-981). -/
def sectionKeys : List String :=
  ["generalInformation", "leaseAmendmentsReviewed", "leaseTermAndDates",
   "noticeAddresses", "billingAndCharges", "leaseNotes",
   "maintenanceAndReimbursement", "tenantInsuranceInformation"]

/-- The clause keys of `leaseNotes.properties`, in declaration order
(lines 763-919); `"Other"` is the catch-all clause and comes last. -/
def noteKeys : List String :=
  ["securityDeposit", "prepaidRent", "primaryUse", "radiusRestrictions",
   "exclusiveUse", "cotenancyRequirements", "acceptableReplacementCotenancy",
   "landlordKickout", "tenantKickout", "tenantGoDark", "landlordRestrictions",
   "assignmentAndSubletting", "shoppingCenterAlterations", "operatingCovenant",
   "lateChargesNSFFee", "defaultClause", "guaranty", "purchaseOptionROFR",
   "marketingOrPromotionalFee", "holdoverTerms", "signage", "estoppel",
   "eminentDomainAndSubordination", "damageOrDestruction", "relocationRight",
   "utilitiesHVACTrash", "repairsMaintenanceReplacements",
   "tenantImprovementAllowance", "constructionManagementFees",
   "landlordMaintenance", "brokersAndAgents", "financialReporting", "parking",
   "landlordWorkAndDelivery", "tenantPlanSubmission", "camTaxesInsurance",
   "tenantDirectBill", "Other"]

/-- The ordered extraction units the scheduler issues: one request per
plain section, and one request per `leaseNotes` clause at the position of
the `leaseNotes` section. -/
def extractionUnits : List SUnit :=
  (sectionKeys.map (fun k =>
    if k = "leaseNotes" then noteKeys.map SUnit.note else [SUnit.sec k])).flatten

/-- The placeholder stored for a non-catch-all clause whose response text
is empty (line 1182). -/
def notFoundVal : Val :=
  Val.obj [("leaseSectionAndPage", Val.str "Not Found"),
           ("notes", Val.str "Not Found")]

/-- Error thrown for an empty response on a plain section (line 1224). -/
def emptySectionMsg (k : String) : String :=
  "The AI model returned an empty response for the \"" ++ toTitleCase k ++
    "\" section."

/-- Error thrown for an unparsable response on a plain section (line 1233). -/
def invalidSectionMsg (k : String) : String :=
  "The AI model returned an invalid data format for the \"" ++ toTitleCase k ++
    "\" section."

/-- Error thrown for an unparsable response on a `leaseNotes` clause
(line 1193). -/
def invalidNoteMsg (k : String) : String :=
  "The AI model returned an invalid data format for the \"" ++ toTitleCase k ++
    "\" note."

/-- The inner loop over `leaseNotes` clauses (lines 1156-1197).  An empty
response is recovered locally: the catch-all clause `"Other"` becomes an
empty array, any other clause a `"Not Found"` placeholder, and the loop
continues.  An unparsable response throws.  A parsed fragment is merged
into the local `leaseNotesData` object. -/
def runNotes (resp : String → Resp) : List String → JRec → Except String JRec
  | [], acc => Except.ok acc
  | k :: rest, acc =>
    match resp k with
    | Resp.empty =>
        runNotes resp rest
          (assignKey acc k (if k = "Other" then Val.arr [] else notFoundVal))
    | Resp.malformed => Except.error (invalidNoteMsg k)
    | Resp.parsed frag => runNotes resp rest (assignObj acc frag)

/-- The final state of one extraction run: the internal `fullAbstractData`,
the snapshots published through `setAbstractData` in order, and the error
caught by the outer handler, if any. -/
structure SchedResult where
  record : JRec
  published : List JRec
  error : Option String

/-- The outer loop over top-level sections (lines 1149-1239).  The
`leaseNotes` section runs the per-clause inner loop, stores the collected
clause object under the `leaseNotes` key and publishes one snapshot; every
other section issues one request, throws on an empty or unparsable
response, merges the parsed fragment with `Object.assign` and publishes a
snapshot.  A throw aborts the loop; the snapshots already published stay
as they are (the `catch` block does not clear `abstractData`). -/
def runSections (resp : SUnit → Resp) :
    List String → JRec → List JRec → SchedResult
  | [], cur, pubs => ⟨cur, pubs, none⟩
  | k :: rest, cur, pubs =>
    if k = "leaseNotes" then
      match runNotes (fun nk => resp (SUnit.note nk)) noteKeys [] with
      | Except.error e => ⟨cur, pubs, some e⟩
      | Except.ok notesData =>
          let cur' := assignKey cur "leaseNotes" (Val.obj notesData)
          runSections resp rest cur' (pubs ++ [cur'])
    else
      match resp (SUnit.sec k) with
      | Resp.empty => ⟨cur, pubs, some (emptySectionMsg k)⟩
      | Resp.malformed => ⟨cur, pubs, some (invalidSectionMsg k)⟩
      | Resp.parsed frag =>
          let cur' := assignObj cur frag
          runSections resp rest cur' (pubs ++ [cur'])

/-- One full extraction run over all sections, starting from the empty
`fullAbstractData = {}` with nothing published yet. -/
def runSchedule (resp : SUnit → Resp) : SchedResult :=
  runSections resp sectionKeys [] []

/-- A response environment honouring the per-section response schema: a
parsed fragment for a plain section is an object whose single top-level
key is that section's key (`responseSchema` at lines 1206-1209). -/
def SecShaped (resp : SUnit → Resp) : Prop :=
  ∀ k f, resp (SUnit.sec k) = Resp.parsed f → keysOf f = [k]

/-- The `leaseNotes` object stored in a run's record, when present. -/
def notesOf (r : SchedResult) : JRec :=
  match lookupRec r.record "leaseNotes" with
  | some (Val.obj fields) => fields
  | _ => []

/-! ### Document set, assembly and application state -/

/-- A selected file: display name, MIME type, and its pages. -/
structure LFile where
  name : String
  ftype : String
  pages : List Page
deriving DecidableEq

/-- Code-point lexicographic comparison of character lists; models the
ordering `(a, b) => a.name.localeCompare(b.name)` induces on the plain
ASCII file names considered here. -/
def charListLe : List Char → List Char → Bool
  | [], _ => true
  | _ :: _, [] => false
  | c :: cs, d :: ds =>
    if c.toNat < d.toNat then true
    else if d.toNat < c.toNat then false
    else charListLe cs ds

/-- String comparison used for sorting the selected-file list. -/
def strLe (a b : String) : Bool := charListLe a.data b.data

/-- The sort relation of `handleFileChange` line 994: compare file names. -/
def fileLe (f g : LFile) : Prop := strLe f.name g.name = true

instance : DecidableRel fileLe := fun f g => by
  unfold fileLe; infer_instance

/-- `[...prevFiles, ...newFiles].sort((a, b) => a.name.localeCompare(b.name))`:
a stable sort by name (insertion sort is stable, as is the JS engine sort). -/
def sortByName (l : List LFile) : List LFile := List.insertionSort fileLe l

/-- One turn of the displayed transcript (`chatHistory` entry): a role
(`"user"` or `"model"`) and plain text content. -/
structure ChatMsg where
  role : String
  content : String
deriving DecidableEq

/-- The component state touched by the handlers under study. -/
structure AppState where
  selectedFiles : List LFile
  abstractData : Option JRec
  chatHistory : List ChatMsg
  leaseTextCache : String
  error : Option String
  qaError : Option String

/-- The document-boundary marker of lines 1111 and 1270. -/
def docBoundary : String := "\n\n--- END OF DOCUMENT ---\n\n"

/-- The page segments of one document, in page order that the acquirer
produces, each already carrying its page-break marker. -/
def docSegs (d : LFile) : List String := d.pages.map pageContrib

/-- Total number of page segments across a document list. -/
def segCount (docs : List LFile) : Nat :=
  (docs.map (fun d => (docSegs d).length)).sum

/-- The Assembled Text: per-document texts joined by the document-boundary
marker, documents taken in the order of the given list
(`leaseTexts.join` with `docBoundary`, line 1111). -/
def assembleText (docs : List LFile) : String :=
  String.intercalate docBoundary (docs.map (fun d => textOf d.pages))

/-- Notice shown when non-PDF files are ignored (line 1000). -/
def pdfRejectMsg : String :=
  "Only PDF files are accepted. Non-PDF files have been ignored."

/-- The batch filter of `handleFileChange` lines 989-991: keep PDFs whose
name does not already occur in the selected list. -/
def newFilesOf (st : AppState) (files : List LFile) : List LFile :=
  files.filter (fun f =>
    decide (f.ftype = "application/pdf") &&
      !(st.selectedFiles.any (fun g => decide (g.name = f.name))))

/-- `handleFileChange` (lines 986-1002): append the filtered batch and
re-sort by name; surface a notice if the batch held non-PDF files.  The
text cache is not touched. -/
def handleFileChange (st : AppState) (files : List LFile) : AppState :=
  let newFiles := newFilesOf st files
  let st1 :=
    if newFiles.isEmpty then st
    else { st with selectedFiles := sortByName (st.selectedFiles ++ newFiles),
                   error := none }
  if files.any (fun f => decide (f.ftype ≠ "application/pdf")) then
    { st1 with error := some pdfRejectMsg }
  else st1

/-- `selectedFiles.filter((_, index) => index !== indexToRemove)`. -/
def removeIndex (l : List LFile) (idx : Nat) : List LFile :=
  ((l.enum).filter (fun x => !(decide (x.1 = idx)))).map Prod.snd

/-- `handleRemoveFile` (lines 1004-1012): drop the file at the index; only
when the list becomes empty are the abstract, the chat and the text cache
cleared. -/
def handleRemoveFile (st : AppState) (idx : Nat) : AppState :=
  let newFiles := removeIndex st.selectedFiles idx
  if newFiles.isEmpty then
    { st with selectedFiles := newFiles, abstractData := none,
              chatHistory := [], leaseTextCache := "" }
  else { st with selectedFiles := newFiles }

/-! ### Question-Answering handler (`handleAskQuestion`, lines 1252-1292) -/

/-- The cache step of lines 1263-1272: when `leaseTextCache.current` is
empty (JS falsy), re-derive the assembled text from the selected files and
store it; otherwise reuse the cached text. -/
def ensureCache (files : List LFile) (cache : String) : String :=
  if cache = "" then assembleText files else cache

/-- The standalone notice surfaced on a Q&A failure (line 1286). -/
def qaFailMsg : String :=
  "Sorry, I couldn\x27t answer that question. Please try again."

/-- `handleAskQuestion` for one turn.  `outcome` is the backend call's
observable result: `some answer` on success, `none` on failure.  A blank
question returns unchanged (line 1254).  The pending question is appended
first (line 1259); on failure every user turn whose content equals the
question is filtered out of the transcript (line 1288) and the notice is
set. -/
def handleAskQuestion (st : AppState) (question : String)
    (outcome : Option String) : AppState :=
  if jsTrim question = "" then st
  else
    let hist1 := st.chatHistory ++ [⟨"user", question⟩]
    let cache1 := ensureCache st.selectedFiles st.leaseTextCache
    match outcome with
    | some ans =>
        { st with chatHistory := hist1 ++ [⟨"model", ans⟩],
                  leaseTextCache := cache1, qaError := none }
    | none =>
        { st with
            chatHistory := hist1.filter (fun m =>
              !(decide (m.role = "user") && decide (m.content = question))),
            leaseTextCache := cache1, qaError := some qaFailMsg }

/-- A sequence of Q&A turns over a fixed document set, threading the text
cache and counting how many times the assembler is driven (the body of the
`if (!leaseTextCache.current)` block).  Blank questions are rejected by
the handler's guard and touch nothing. -/
def qaTurns (files : List LFile) : List String → String → Nat → String × Nat
  | [], cache, n => (cache, n)
  | q :: qs, cache, n =>
    if jsTrim q = "" then qaTurns files qs cache n
    else qaTurns files qs (ensureCache files cache)
        (n + (if cache = "" then 1 else 0))

/-! ### Concrete fixtures used by counterexamples and witnesses -/

/-- A scanned page: no native text items, OCR would return `s`. -/
def scanPage (s : String) : Page :=
  { items := [], ocrText := s, readFails := false, ocrFails := false }

/-- A text-rich page: 20 native items, so the dual threshold passes. -/
def richPage : Page :=
  { items := List.replicate 20 "lorem", ocrText := "", readFails := false,
    ocrFails := false }

/-- PDF named `a.pdf` with one scanned page. -/
def fileA : LFile :=
  { name := "a.pdf", ftype := "application/pdf", pages := [scanPage "ALPHA"] }

/-- PDF named `b.pdf` with one scanned page. -/
def fileB : LFile :=
  { name := "b.pdf", ftype := "application/pdf", pages := [scanPage "BRAVO"] }

/-- PDF named `c.pdf` with one scanned page. -/
def fileC : LFile :=
  { name := "c.pdf", ftype := "application/pdf", pages := [scanPage "CHARLIE"] }

/-- A PDF with no pages at all: its extracted text is the empty string. -/
def emptyFile : LFile :=
  { name := "e.pdf", ftype := "application/pdf", pages := [] }

/-- Two distinct files carrying the same display name. -/
def dupA1 : LFile :=
  { name := "a.pdf", ftype := "application/pdf", pages := [scanPage "ONE"] }

/-- Second file with the duplicated name. -/
def dupA2 : LFile :=
  { name := "a.pdf", ftype := "application/pdf", pages := [scanPage "TWO"] }

/-- The pristine application state. -/
def initialState : AppState :=
  { selectedFiles := [], abstractData := none, chatHistory := [],
    leaseTextCache := "", error := none, qaError := none }

/-- A state with two selected files and a populated text cache. -/
def stCached : AppState :=
  { selectedFiles := [fileA, fileB], abstractData := none, chatHistory := [],
    leaseTextCache := "OLD TEXT", error := none, qaError := none }

/-- A state with one answered Q&A turn in the transcript. -/
def stChat : AppState :=
  { selectedFiles := [fileA], abstractData := none,
    chatHistory := [⟨"user", "q"⟩, ⟨"model", "a"⟩],
    leaseTextCache := "CACHED", error := none, qaError := none }

/-- Backend environment where every unit parses to a fragment keyed by the
unit's own key. -/
def respAllGood : SUnit → Resp
  | SUnit.sec k => Resp.parsed [(k, Val.str "x")]
  | SUnit.note k => Resp.parsed [(k, Val.str "x")]

/-- Backend environment where exactly the non-catch-all clause
`securityDeposit` returns empty text. -/
def respEmptyNote : SUnit → Resp
  | SUnit.sec k => Resp.parsed [(k, Val.str "x")]
  | SUnit.note k =>
      if k = "securityDeposit" then Resp.empty else Resp.parsed [(k, Val.str "x")]

/-- Backend environment where exactly the second clause `prepaidRent`
returns unparsable text; the first clause `securityDeposit` succeeds. -/
def respBadNote : SUnit → Resp
  | SUnit.sec k => Resp.parsed [(k, Val.str "x")]
  | SUnit.note k =>
      if k = "prepaidRent" then Resp.malformed else Resp.parsed [(k, Val.str "x")]

/-- Backend environment returning empty text for every unit. -/
def respAllEmpty : SUnit → Resp := fun _ => Resp.empty

/-! ### Helper lemmas: the name ordering and the selection handlers -/

theorem charListLe_total : ∀ xs ys : List Char,
    charListLe xs ys = true ∨ charListLe ys xs = true := by
  intro xs
  induction xs with
  | nil => intro ys; left; rfl
  | cons c cs ih =>
    intro ys
    cases ys with
    | nil => right; rfl
    | cons d ds =>
      rcases Nat.lt_trichotomy c.toNat d.toNat with h | h | h
      · left; simp [charListLe, h]
      · rcases ih ds with h2 | h2
        · left; simp [charListLe, h, Nat.lt_irrefl, h2]
        · right; simp [charListLe, h, Nat.lt_irrefl, h2]
      · right; simp [charListLe, h]

theorem charListLe_trans : ∀ xs ys zs : List Char,
    charListLe xs ys = true → charListLe ys zs = true →
    charListLe xs zs = true := by
  intro xs
  induction xs with
  | nil => intro ys zs h1 h2; rfl
  | cons c cs ih =>
    intro ys zs h1 h2
    cases ys with
    | nil => simp [charListLe] at h1
    | cons d ds =>
      cases zs with
      | nil => simp [charListLe] at h2
      | cons e es =>
        rcases Nat.lt_trichotomy c.toNat d.toNat with hcd | hcd | hcd
        · rcases Nat.lt_trichotomy d.toNat e.toNat with hde | hde | hde
          · simp [charListLe, Nat.lt_trans hcd hde]
          · simp [charListLe, hde ▸ hcd]
          · simp [charListLe, Nat.lt_asymm hde, hde] at h2
        · rcases Nat.lt_trichotomy d.toNat e.toNat with hde | hde | hde
          · simp [charListLe, hcd ▸ hde]
          · simp only [charListLe, hcd, Nat.lt_irrefl, if_false] at h1
            simp only [charListLe, hde, Nat.lt_irrefl, if_false] at h2
            have hce : c.toNat = e.toNat := hcd.trans hde
            simp only [charListLe, hce, Nat.lt_irrefl, if_false]
            exact ih ds es h1 h2
          · simp [charListLe, Nat.lt_asymm hde, hde] at h2
        · simp [charListLe, Nat.lt_asymm hcd, hcd] at h1

instance : IsTotal LFile fileLe :=
  ⟨fun a b => charListLe_total a.name.data b.name.data⟩

instance : IsTrans LFile fileLe :=
  ⟨fun a b c h1 h2 => charListLe_trans a.name.data b.name.data c.name.data h1 h2⟩

theorem sortByName_perm (l : List LFile) : (sortByName l).Perm l :=
  List.perm_insertionSort fileLe l

theorem sortByName_sorted (l : List LFile) : List.Sorted fileLe (sortByName l) :=
  List.sorted_insertionSort fileLe l

theorem handleFileChange_selectedFiles (st : AppState) (files : List LFile) :
    (handleFileChange st files).selectedFiles =
      if (newFilesOf st files).isEmpty then st.selectedFiles
      else sortByName (st.selectedFiles ++ newFilesOf st files) := by
  simp only [handleFileChange]
  split_ifs <;> rfl

theorem handleFileChange_cache (st : AppState) (files : List LFile) :
    (handleFileChange st files).leaseTextCache = st.leaseTextCache := by
  simp only [handleFileChange]
  split_ifs <;> rfl

theorem handleRemoveFile_selectedFiles (st : AppState) (idx : Nat) :
    (handleRemoveFile st idx).selectedFiles = removeIndex st.selectedFiles idx := by
  unfold handleRemoveFile
  by_cases h : (removeIndex st.selectedFiles idx).isEmpty <;> simp [h]

theorem handleRemoveFile_cache (st : AppState) (idx : Nat) :
    (handleRemoveFile st idx).leaseTextCache =
      if (removeIndex st.selectedFiles idx).isEmpty then ""
      else st.leaseTextCache := by
  unfold handleRemoveFile
  by_cases h : (removeIndex st.selectedFiles idx).isEmpty <;> simp [h]

theorem removeIndex_sublist (l : List LFile) (idx : Nat) :
    (removeIndex l idx).Sublist l := by
  have h1 : ((l.enum.filter (fun x => !(decide (x.1 = idx)))).map Prod.snd).Sublist
      (l.enum.map Prod.snd) :=
    List.Sublist.map Prod.snd (List.filter_sublist l.enum)
  simpa [removeIndex, List.enum_map_snd] using h1

theorem newFilesOf_not_selected (st : AppState) (files : List LFile) :
    ∀ f ∈ newFilesOf st files, ∀ g ∈ st.selectedFiles, g.name ≠ f.name := by
  intro f hf g hg
  have hpred := (List.mem_filter.mp hf).2
  simp only [Bool.and_eq_true, Bool.not_eq_true', List.any_eq_false,
    decide_eq_true_eq, decide_eq_false_iff_not] at hpred
  exact hpred.2 g hg

theorem newFilesOf_sublist (st : AppState) (files : List LFile) :
    (newFilesOf st files).Sublist files := List.filter_sublist files

theorem qaTurns_stable (files : List LFile) :
    ∀ (qs : List String) (cache : String) (n : Nat), cache ≠ "" →
      qaTurns files qs cache n = (cache, n) := by
  intro qs
  induction qs with
  | nil => intro cache n _; rfl
  | cons q rest ih =>
    intro cache n hc
    by_cases hq : jsTrim q = ""
    · simp only [qaTurns, hq, if_pos rfl]
      exact ih cache n hc
    · simp only [qaTurns, if_neg hq, ensureCache, if_neg hc]
      exact ih cache n hc

/-! ### Claim C6 — cache invalidation on document-set change -/

/-- C6 counterexample: removing one of two selected documents, or adding a
third document, changes the selected document set but leaves the old
cached Assembled Text in place, contradicting the claim that every change
to the document set clears the derived caches. -/
theorem c6_cache_not_invalidated_counterexample :
    (handleRemoveFile stCached 0).selectedFiles = [fileB]
    ∧ (handleRemoveFile stCached 0).leaseTextCache = "OLD TEXT"
    ∧ (handleFileChange stCached [fileC]).selectedFiles = [fileA, fileB, fileC]
    ∧ (handleFileChange stCached [fileC]).leaseTextCache = "OLD TEXT"
    ∧ "OLD TEXT" ≠ "" := by
  refine ⟨by decide, by decide, by decide, by decide, by decide⟩

/-- C6 amended: the cached Assembled Text survives every add
(`handleFileChange` never touches it) and every remove except the one that
empties the selected list; only removing the last document clears the
cache, the abstract and the chat. -/
theorem c6_cache_cleared_only_on_last_removal (st : AppState)
    (files : List LFile) (idx : Nat) :
    (handleFileChange st files).leaseTextCache = st.leaseTextCache
    ∧ (handleRemoveFile st idx).leaseTextCache =
        (if (removeIndex st.selectedFiles idx).isEmpty then ""
         else st.leaseTextCache) :=
  ⟨handleFileChange_cache st files, handleRemoveFile_cache st idx⟩

/-! ### Claim C7 — Q&A failure rollback -/

/-- C7 counterexample: the transcript holds the answered turn
(user `"q"`, model `"a"`); asking `"q"` again and failing removes BOTH
user turns with that text, so the earlier turn is not left intact and a
model answer is left without its question. -/
theorem c7_rollback_removes_earlier_turn_counterexample :
    (handleAskQuestion stChat "q" none).chatHistory = [⟨"model", "a"⟩]
    ∧ stChat.chatHistory = [⟨"user", "q"⟩, ⟨"model", "a"⟩]
    ∧ (handleAskQuestion stChat "q" none).chatHistory ≠ stChat.chatHistory := by
  refine ⟨by decide, by decide, by decide⟩

/-- C7 amended: on a failed Q&A turn the handler removes every user turn
whose text equals the failed question (so exactly the pending question is
removed only when its text matches no earlier user turn), surfaces the
standalone notice, and never clears the cached Assembled Text. -/
theorem c7_qa_failure_rollback (st : AppState) (q : String)
    (hq : jsTrim q ≠ "") :
    (handleAskQuestion st q none).chatHistory =
        (st.chatHistory ++ [ChatMsg.mk "user" q]).filter (fun m =>
          !(decide (m.role = "user") && decide (m.content = q)))
    ∧ (handleAskQuestion st q none).leaseTextCache =
        ensureCache st.selectedFiles st.leaseTextCache
    ∧ (handleAskQuestion st q none).qaError = some qaFailMsg
    ∧ ((∀ m ∈ st.chatHistory, m.role = "user" → m.content ≠ q) →
        (handleAskQuestion st q none).chatHistory = st.chatHistory) := by
  refine ⟨?_, ?_, ?_, ?_⟩
  · simp [handleAskQuestion, if_neg hq]
  · simp [handleAskQuestion, if_neg hq]
  · simp [handleAskQuestion, if_neg hq]
  · intro h
    have hkeep : ∀ m ∈ st.chatHistory,
        (!(decide (m.role = "user") && decide (m.content = q))) = true := by
      intro m hm
      by_cases hr : m.role = "user"
      · simp [hr, h m hm hr]
      · simp [hr]
    have hdrop : ([ChatMsg.mk "user" q].filter (fun m =>
        !(decide (m.role = "user") && decide (m.content = q)))) = [] := by
      simp
    simp only [handleAskQuestion, if_neg hq, List.filter_append, hdrop,
      List.filter_eq_self.mpr hkeep, List.append_nil]

/-- C7 witness: a fresh question whose text matches no earlier user turn
is rolled back alone, leaving the prior transcript unchanged. -/
theorem c7_qa_failure_rollback_witness :
    jsTrim "what is the rent" ≠ ""
    ∧ (handleAskQuestion stChat "what is the rent" none).chatHistory =
        stChat.chatHistory :=
  ⟨by decide,
   (c7_qa_failure_rollback stChat "what is the rent" (by decide)).2.2.2
     (by decide)⟩

/-! ### Claim C9 — single computation of the Assembled Text for Q&A -/

/-- C9 counterexample: with one selected document that has no pages the
assembled text is the empty string, which is exactly the cache's
"not yet computed" sentinel; two questions before any extraction run then
drive the assembler twice, not once. -/
theorem c9_empty_text_recomputed_counterexample :
    qaTurns [emptyFile] ["first question", "second question"] "" 0 = ("", 2)
    ∧ (2 : Nat) ≠ 1 := by
  refine ⟨by decide, by decide⟩

/-- C9 amended: provided the document set assembles to a nonempty text,
a sequence of Q&A turns before any extraction run computes the Assembled
Text exactly once — on the first non-blank question — and every later turn
reuses the identical cached text. -/
theorem c9_assembled_once_for_qa (files : List LFile) (qs : List String)
    (q : String) (hne : assembleText files ≠ "") (hq : jsTrim q ≠ "") :
    qaTurns files (q :: qs) "" 0 = (assembleText files, 1) := by
  simp only [qaTurns, if_neg hq, ensureCache, if_pos rfl]
  exact qaTurns_stable files qs (assembleText files) 1 hne

/-- C9 witness: two non-blank questions over one nonempty scanned document
yield exactly one assembler run. -/
theorem c9_assembled_once_for_qa_witness :
    assembleText [fileA] ≠ "" ∧ jsTrim "first question" ≠ ""
    ∧ qaTurns [fileA] ["first question", "second question"] "" 0 =
        (assembleText [fileA], 1) :=
  ⟨by decide, by decide,
   c9_assembled_once_for_qa [fileA] ["second question"] "first question"
     (by decide) (by decide)⟩

/-! ### Claim C10 — no duplicate names in the selected list -/

/-- C10 counterexample: one batch containing two distinct files that share
the name `a.pdf` passes the duplicate filter (which only consults the
previously selected list), so the selected list ends up with two entries
of the same name. -/
theorem c10_duplicate_names_counterexample :
    ¬ (((handleFileChange initialState [dupA1, dupA2]).selectedFiles.map
        LFile.name).Nodup) := by
  decide

/-- C10 amended: a batch file whose name equals an already-selected file's
name is skipped, and the no-duplicate-name invariant is preserved by every
remove and by every add whose batch itself carries pairwise-distinct
names; it can be broken only by duplicates inside a single batch. -/
theorem c10_duplicate_filter :
    (∀ st files f, f ∈ newFilesOf st files → ∀ g ∈ st.selectedFiles,
        g.name ≠ f.name)
    ∧ (∀ st files, (st.selectedFiles.map LFile.name).Nodup →
        (files.map LFile.name).Nodup →
        ((handleFileChange st files).selectedFiles.map LFile.name).Nodup)
    ∧ (∀ st idx, (st.selectedFiles.map LFile.name).Nodup →
        ((handleRemoveFile st idx).selectedFiles.map LFile.name).Nodup) := by
  refine ⟨newFilesOf_not_selected, ?_, ?_⟩
  · intro st files hsel hbatch
    rw [handleFileChange_selectedFiles]
    by_cases h1 : (newFilesOf st files).isEmpty
    · simpa [h1] using hsel
    · rw [if_neg h1]
      have hperm : ((sortByName (st.selectedFiles ++ newFilesOf st files)).map
          LFile.name).Perm ((st.selectedFiles ++ newFilesOf st files).map
          LFile.name) :=
        (sortByName_perm (st.selectedFiles ++ newFilesOf st files)).map LFile.name
      refine hperm.symm.nodup ?_
      rw [List.map_append]
      refine List.Nodup.append hsel ?_ ?_
      · exact ((newFilesOf_sublist st files).map LFile.name).nodup hbatch
      · rw [List.disjoint_left]
        intro a ha hb
        rcases List.mem_map.mp ha with ⟨g, hg, rfl⟩
        rcases List.mem_map.mp hb with ⟨f, hf, hname⟩
        exact newFilesOf_not_selected st files f hf g hg hname.symm
  · intro st idx hsel
    rw [handleRemoveFile_selectedFiles]
    exact ((removeIndex_sublist st.selectedFiles idx).map LFile.name).nodup hsel

/-- C10 witness: the duplicate filter and both preservation statements at
concrete inputs. -/
theorem c10_duplicate_filter_witness :
    ((handleFileChange stCached [fileB, fileC]).selectedFiles.map
        LFile.name).Nodup
    ∧ ((handleRemoveFile stCached 0).selectedFiles.map LFile.name).Nodup :=
  ⟨c10_duplicate_filter.2.1 stCached [fileB, fileC] (by decide) (by decide),
   c10_duplicate_filter.2.2 stCached 0 (by decide)⟩

/-! ### Claim C1 — document order in the Assembled Text -/

/-- C1 counterexample: supplying `b.pdf` then `a.pdf` (chronological input
order) yields the selected list `[a.pdf, b.pdf]` — `handleFileChange`
re-sorts by file name — so the Assembled Text puts `a.pdf` first and
differs from the input-order assembly. -/
theorem c1_input_order_counterexample :
    (handleFileChange initialState [fileB, fileA]).selectedFiles =
        [fileA, fileB]
    ∧ ([fileA, fileB] : List LFile) ≠ [fileB, fileA]
    ∧ assembleText [fileA, fileB] ≠ assembleText [fileB, fileA] := by
  refine ⟨by decide, by decide, by decide⟩

/-- C1 amended: documents appear in the Assembled Text in the order of the
selected list, which `handleFileChange` keeps sorted by file name (not in
raw input order); within that order each document contributes its pages in
page order, and N documents of P pages each contribute N×P page segments,
each followed by the page-break marker, with the document-boundary marker
between documents. -/
theorem c1_sorted_order_and_markers :
    (∀ (st : AppState) (batch : List LFile),
        List.Sorted fileLe st.selectedFiles →
        List.Sorted fileLe (handleFileChange st batch).selectedFiles)
    ∧ (∀ (st : AppState) (batch : List LFile),
        ((handleFileChange st batch).selectedFiles).Perm
          (st.selectedFiles ++ newFilesOf st batch))
    ∧ (∀ docs : List LFile, assembleText docs =
        String.intercalate docBoundary
          (docs.map (fun d => String.join (docSegs d))))
    ∧ (∀ (docs : List LFile) (P : Nat), (∀ d ∈ docs, d.pages.length = P) →
        segCount docs = docs.length * P) := by
  refine ⟨?_, ?_, ?_, ?_⟩
  · intro st batch hs
    rw [handleFileChange_selectedFiles]
    by_cases h1 : (newFilesOf st batch).isEmpty
    · simpa [h1] using hs
    · rw [if_neg h1]; exact sortByName_sorted _
  · intro st batch
    rw [handleFileChange_selectedFiles]
    by_cases h1 : (newFilesOf st batch).isEmpty
    · rw [if_pos h1, List.isEmpty_iff.mp h1]
      simp
    · rw [if_neg h1]; exact sortByName_perm _
  · intro docs; rfl
  · intro docs P
    induction docs with
    | nil => intro _; simp [segCount]
    | cons d ds ih =>
      intro h
      have hd : d.pages.length = P := h d (by simp)
      have hds := ih (fun x hx => h x (List.mem_cons_of_mem d hx))
      simp only [segCount, List.map_cons, List.sum_cons, List.length_cons] at *
      rw [hds, Nat.succ_mul]
      simp [docSegs, hd, Nat.add_comm]

/-- C1 witness: the amended theorem at the concrete two-file run. -/
theorem c1_sorted_order_and_markers_witness :
    List.Sorted fileLe
      (handleFileChange initialState [fileB, fileA]).selectedFiles
    ∧ ((handleFileChange initialState [fileB, fileA]).selectedFiles).Perm
        (initialState.selectedFiles ++ newFilesOf initialState [fileB, fileA])
    ∧ segCount [fileA, fileB] = 2 * 1 :=
  ⟨c1_sorted_order_and_markers.1 initialState [fileB, fileA]
     List.sorted_nil,
   c1_sorted_order_and_markers.2.1 initialState [fileB, fileA],
   c1_sorted_order_and_markers.2.2.2 [fileA, fileB] 1 (by decide)⟩

/-! ### Helper lemmas: the page loop -/

theorem foldl_append_str (l : List String) :
    ∀ x y : String, l.foldl (· ++ ·) (x ++ y) = x ++ l.foldl (· ++ ·) y := by
  induction l with
  | nil => intro x y; rfl
  | cons a as ih =>
    intro x y
    simp only [List.foldl_cons]
    rw [String.append_assoc]
    exact ih x (y ++ a)

theorem join_cons_str (a : String) (l : List String) :
    String.join (a :: l) = a ++ String.join l := by
  show (a :: l).foldl (· ++ ·) "" = a ++ l.foldl (· ++ ·) ""
  simp only [List.foldl_cons]
  rw [String.empty_append, ← String.append_empty a, foldl_append_str,
    String.append_empty]

theorem textOf_cons (p : Page) (rest : List Page) :
    textOf (p :: rest) = pageContrib p ++ textOf rest := by
  simp [textOf, join_cons_str]

theorem countCreate_append (a b : List PdfEvent) :
    countCreate (a ++ b) = countCreate a + countCreate b := by
  simp [countCreate, List.filter_append]

theorem countTerminate_append (a b : List PdfEvent) :
    countTerminate (a ++ b) = countTerminate a + countTerminate b := by
  simp [countTerminate, List.filter_append]

theorem countCreate_cons_other (e : PdfEvent) (l : List PdfEvent)
    (h : e ≠ PdfEvent.createWorker) :
    countCreate (e :: l) = countCreate l := by
  simp [countCreate, List.filter_cons, h]

theorem countCreate_cons_create (l : List PdfEvent) :
    countCreate (PdfEvent.createWorker :: l) = countCreate l + 1 := by
  simp [countCreate, List.filter_cons]

theorem countTerminate_cons_other (e : PdfEvent) (l : List PdfEvent)
    (h : e ≠ PdfEvent.terminateWorker) :
    countTerminate (e :: l) = countTerminate l := by
  simp [countTerminate, List.filter_cons, h]

theorem ocrEvents_append (a b : List PdfEvent) :
    ocrEvents (a ++ b) = ocrEvents a ++ ocrEvents b := by
  simp [ocrEvents, List.filterMap_append]

theorem runPages_worker (pages : List Page) :
    ∀ (i : Nat) (w : Bool) (acc : String),
      (runPages pages i w acc).1 =
        (w || (pages.takeWhile (fun p => !p.readFails)).any needsOcr) := by
  induction pages with
  | nil => intro i w acc; simp [runPages]
  | cons p rest ih =>
    intro i w acc
    by_cases hr : p.readFails = true
    · simp [runPages, hr, List.takeWhile_cons]
    · rw [Bool.not_eq_true] at hr
      cases hN : needsOcr p with
      | false => simp [runPages, hr, hN, List.takeWhile_cons, ih]
      | true =>
        cases ho : p.ocrFails with
        | true => simp [runPages, hr, hN, ho, List.takeWhile_cons]
        | false => simp [runPages, hr, hN, ho, List.takeWhile_cons, ih]

theorem runPages_countCreate (pages : List Page) :
    ∀ (i : Nat) (w : Bool) (acc : String),
      countCreate (runPages pages i w acc).2.1 =
        (if (!w) && (pages.takeWhile (fun p => !p.readFails)).any needsOcr
         then 1 else 0) := by
  induction pages with
  | nil => intro i w acc; simp [runPages, countCreate]
  | cons p rest ih =>
    intro i w acc
    by_cases hr : p.readFails = true
    · simp [runPages, hr, List.takeWhile_cons, countCreate]
    · rw [Bool.not_eq_true] at hr
      cases hN : needsOcr p with
      | false => simp [runPages, hr, hN, List.takeWhile_cons, ih]
      | true =>
        cases ho : p.ocrFails with
        | true =>
          cases w <;>
            simp [runPages, hr, hN, ho, List.takeWhile_cons, countCreate]
        | false =>
          have hev : (runPages (p :: rest) i w acc).2.1 =
              (if w then ([] : List PdfEvent) else [PdfEvent.createWorker]) ++
                PdfEvent.ocr i 2 ::
                  (runPages rest (i + 1) true (acc ++ p.ocrText ++ "\n\n")).2.1 := by
            simp [runPages, hr, hN, ho]
          have hocr : countCreate (PdfEvent.ocr i 2 ::
              (runPages rest (i + 1) true (acc ++ p.ocrText ++ "\n\n")).2.1) =
              countCreate (runPages rest (i + 1) true
                (acc ++ p.ocrText ++ "\n\n")).2.1 :=
            countCreate_cons_other _ _ (by simp)
          rw [hev, countCreate_append, hocr, ih]
          cases w <;> simp [List.takeWhile_cons, hr, hN, countCreate]

theorem runPages_countTerminate (pages : List Page) :
    ∀ (i : Nat) (w : Bool) (acc : String),
      countTerminate (runPages pages i w acc).2.1 = 0 := by
  induction pages with
  | nil => intro i w acc; simp [runPages, countTerminate]
  | cons p rest ih =>
    intro i w acc
    by_cases hr : p.readFails = true
    · simp [runPages, hr, countTerminate]
    · rw [Bool.not_eq_true] at hr
      cases hN : needsOcr p with
      | false => simp [runPages, hr, hN, ih]
      | true =>
        cases ho : p.ocrFails with
        | true => cases w <;> simp [runPages, hr, hN, ho, countTerminate]
        | false =>
          have hev : (runPages (p :: rest) i w acc).2.1 =
              (if w then ([] : List PdfEvent) else [PdfEvent.createWorker]) ++
                PdfEvent.ocr i 2 ::
                  (runPages rest (i + 1) true (acc ++ p.ocrText ++ "\n\n")).2.1 := by
            simp [runPages, hr, hN, ho]
          have hocr : countTerminate (PdfEvent.ocr i 2 ::
              (runPages rest (i + 1) true (acc ++ p.ocrText ++ "\n\n")).2.1) =
              countTerminate (runPages rest (i + 1) true
                (acc ++ p.ocrText ++ "\n\n")).2.1 :=
            countTerminate_cons_other _ _ (by simp)
          rw [hev, countTerminate_append, hocr, ih]
          cases w <;> simp [countTerminate]

theorem runPages_clean_result (pages : List Page) :
    ∀ (i : Nat) (w : Bool) (acc : String),
      (∀ p ∈ pages, p.readFails = false ∧ p.ocrFails = false) →
      (runPages pages i w acc).2.2 = Except.ok (acc ++ textOf pages) := by
  induction pages with
  | nil =>
    intro i w acc _
    simp only [runPages]
    rw [show textOf [] = "" from rfl, String.append_empty]
  | cons p rest ih =>
    intro i w acc h
    have hp := h p (by simp)
    have hrest : ∀ q ∈ rest, q.readFails = false ∧ q.ocrFails = false :=
      fun q hq => h q (List.mem_cons_of_mem p hq)
    rw [textOf_cons]
    cases hN : needsOcr p with
    | true =>
      have : (runPages (p :: rest) i w acc).2.2 =
          (runPages rest (i + 1) true (acc ++ p.ocrText ++ "\n\n")).2.2 := by
        simp [runPages, hp.1, hp.2, hN]
      rw [this, ih (i + 1) true _ hrest, pageContrib, hN]
      simp [String.append_assoc]
    | false =>
      have : (runPages (p :: rest) i w acc).2.2 =
          (runPages rest (i + 1) w (acc ++ nativeText p ++ "\n\n")).2.2 := by
        simp [runPages, hp.1, hN]
      rw [this, ih (i + 1) w _ hrest, pageContrib, hN]
      simp [String.append_assoc]

theorem runPages_clean_ocrEvents (pages : List Page) :
    ∀ (i : Nat) (w : Bool) (acc : String),
      (∀ p ∈ pages, p.readFails = false ∧ p.ocrFails = false) →
      ocrEvents (runPages pages i w acc).2.1 =
        ((List.enumFrom i pages).filter (fun x => needsOcr x.2)).map
          (fun x => (x.1, 2)) := by
  induction pages with
  | nil => intro i w acc _; simp [runPages, ocrEvents]
  | cons p rest ih =>
    intro i w acc h
    have hp := h p (by simp)
    have hrest : ∀ q ∈ rest, q.readFails = false ∧ q.ocrFails = false :=
      fun q hq => h q (List.mem_cons_of_mem p hq)
    rw [List.enumFrom_cons]
    cases hN : needsOcr p with
    | true =>
      have hev : (runPages (p :: rest) i w acc).2.1 =
          (if w then ([] : List PdfEvent) else [PdfEvent.createWorker]) ++
            PdfEvent.ocr i 2 ::
              (runPages rest (i + 1) true (acc ++ p.ocrText ++ "\n\n")).2.1 := by
        simp [runPages, hp.1, hp.2, hN]
      rw [hev, ocrEvents_append]
      have h0 : ocrEvents
          (if w then ([] : List PdfEvent) else [PdfEvent.createWorker]) = [] := by
        cases w <;> rfl
      rw [h0]
      simp only [List.nil_append, ocrEvents, List.filterMap_cons]
      rw [show (List.filter (fun x => needsOcr x.2)
            ((i, p) :: List.enumFrom (i + 1) rest)) =
          (i, p) :: List.filter (fun x => needsOcr x.2)
            (List.enumFrom (i + 1) rest) from by simp [List.filter_cons, hN]]
      simpa [ocrEvents] using ih (i + 1) true (acc ++ p.ocrText ++ "\n\n") hrest
    | false =>
      have hev : (runPages (p :: rest) i w acc).2.1 =
          (runPages rest (i + 1) w (acc ++ nativeText p ++ "\n\n")).2.1 := by
        simp [runPages, hp.1, hN]
      rw [hev, ih (i + 1) w _ hrest]
      congr 1
      simp [List.filter_cons, hN]

/-! ### Claim C5 — the OCR dual threshold -/

/-- C5 confirmed: on a failure-free document, OCR runs on page `i` exactly
when that page has fewer than 15 native items AND trimmed native text
shorter than 150 characters — such pages appear exactly once in the OCR
event list, always at render scale 2 — and every page passing either
threshold contributes its native text layer verbatim. -/
theorem c5_ocr_iff_dual_threshold (pages : List Page)
    (hclean : ∀ p ∈ pages, p.readFails = false ∧ p.ocrFails = false) :
    ocrEvents (pdfEvents pages) =
      ((pages.enum).filter (fun x => needsOcr x.2)).map (fun x => (x.1, 2))
    ∧ pdfResult pages = Except.ok (textOf pages)
    ∧ (∀ p ∈ pages, needsOcr p = false →
        pageContrib p = nativeText p ++ "\n\n") := by
  refine ⟨?_, ?_, ?_⟩
  · have hbody : pdfEvents pages = (runPages pages 0 false "").2.1 ++
        (if (runPages pages 0 false "").1 then [PdfEvent.terminateWorker]
         else []) := rfl
    rw [hbody, ocrEvents_append, runPages_clean_ocrEvents pages 0 false "" hclean]
    have hterm : ocrEvents
        (if (runPages pages 0 false "").1 then [PdfEvent.terminateWorker]
         else []) = [] := by
      cases (runPages pages 0 false "").1 <;> rfl
    rw [hterm, List.append_nil, List.enum_eq_enumFrom]
  · have : pdfResult pages = (runPages pages 0 false "").2.2 := rfl
    rw [this, runPages_clean_result pages 0 false "" hclean,
      String.empty_append]
  · intro p _ hno
    simp [pageContrib, hno]

/-- C5 witness: a two-page document — one text-rich page, one scanned
page — exercises the theorem; OCR fires exactly once, on page 1, at
scale 2. -/
theorem c5_ocr_iff_dual_threshold_witness :
    (∀ p ∈ [richPage, scanPage "SCAN"],
        p.readFails = false ∧ p.ocrFails = false)
    ∧ (ocrEvents (pdfEvents [richPage, scanPage "SCAN"]) =
        (([richPage, scanPage "SCAN"].enum).filter
          (fun x => needsOcr x.2)).map (fun x => (x.1, 2))
      ∧ pdfResult [richPage, scanPage "SCAN"] =
          Except.ok (textOf [richPage, scanPage "SCAN"])
      ∧ (∀ p ∈ [richPage, scanPage "SCAN"], needsOcr p = false →
          pageContrib p = nativeText p ++ "\n\n")) :=
  ⟨by decide, c5_ocr_iff_dual_threshold [richPage, scanPage "SCAN"] (by decide)⟩

/-! ### Claim C8 — scoped OCR worker lifecycle -/

/-- C8 confirmed: per document, a worker is created exactly when the run
reaches a page below both thresholds (hence at most once, and never for a
document whose readable pages all pass), is terminated exactly as often as
it is created — on the success path and on every failure path, since the
`finally` block appends the termination — and termination is the last
resource event before the function returns. -/
theorem c8_worker_scoped_lifecycle (pages : List Page) :
    countCreate (pdfEvents pages) =
      (if (pages.takeWhile (fun p => !p.readFails)).any needsOcr then 1 else 0)
    ∧ countCreate (pdfEvents pages) ≤ 1
    ∧ countTerminate (pdfEvents pages) = countCreate (pdfEvents pages)
    ∧ (pages.all (fun p => !needsOcr p) = true →
        countCreate (pdfEvents pages) = 0)
    ∧ (countCreate (pdfEvents pages) = 1 →
        (pdfEvents pages).getLast? = some PdfEvent.terminateWorker) := by
  have hbody : pdfEvents pages = (runPages pages 0 false "").2.1 ++
      (if (runPages pages 0 false "").1 then [PdfEvent.terminateWorker]
       else []) := rfl
  have hw : (runPages pages 0 false "").1 =
      (pages.takeWhile (fun p => !p.readFails)).any needsOcr := by
    simpa using runPages_worker pages 0 false ""
  have hcb : countCreate (runPages pages 0 false "").2.1 =
      (if (pages.takeWhile (fun p => !p.readFails)).any needsOcr
       then 1 else 0) := by
    simpa using runPages_countCreate pages 0 false ""
  have hcc : countCreate (pdfEvents pages) =
      (if (pages.takeWhile (fun p => !p.readFails)).any needsOcr
       then 1 else 0) := by
    rw [hbody, countCreate_append, hcb, hw]
    cases h : (pages.takeWhile (fun p => !p.readFails)).any needsOcr <;>
      simp [countCreate]
  have hct : countTerminate (pdfEvents pages) =
      (if (pages.takeWhile (fun p => !p.readFails)).any needsOcr
       then 1 else 0) := by
    rw [hbody, countTerminate_append, runPages_countTerminate pages 0 false "",
      hw]
    cases h : (pages.takeWhile (fun p => !p.readFails)).any needsOcr <;>
      simp [countTerminate]
  refine ⟨hcc, ?_, ?_, ?_, ?_⟩
  · rw [hcc]
    cases (pages.takeWhile (fun p => !p.readFails)).any needsOcr <;> simp
  · rw [hct, hcc]
  · intro hall
    rw [hcc, if_neg ?_]
    intro hany
    rcases List.any_eq_true.mp hany with ⟨p, hp, hocr⟩
    have hpmem : p ∈ pages := (List.takeWhile_sublist _).mem hp
    have := List.all_eq_true.mp hall p hpmem
    simp [hocr] at this
  · intro hone
    have hany : (pages.takeWhile (fun p => !p.readFails)).any needsOcr = true := by
      by_contra hx
      rw [hcc, if_neg hx] at hone
      exact absurd hone (by decide)
    rw [hbody, hw, hany, if_pos rfl]
    exact List.getLast?_concat _

/-- C8 witness: for the two-page document the worker is terminated once,
termination is the final event, and an all-native document never creates a
worker. -/
theorem c8_worker_scoped_lifecycle_witness :
    countTerminate (pdfEvents [richPage, scanPage "SCAN"]) =
      countCreate (pdfEvents [richPage, scanPage "SCAN"])
    ∧ (pdfEvents [richPage, scanPage "SCAN"]).getLast? =
        some PdfEvent.terminateWorker
    ∧ countCreate (pdfEvents [richPage, richPage]) = 0 :=
  ⟨(c8_worker_scoped_lifecycle [richPage, scanPage "SCAN"]).2.2.1,
   (c8_worker_scoped_lifecycle [richPage, scanPage "SCAN"]).2.2.2.2 (by decide),
   (c8_worker_scoped_lifecycle [richPage, richPage]).2.2.2.1 (by decide)⟩

/-! ### Helper lemmas: the scheduler's merge -/

theorem assignKey_not_mem (r : JRec) (k : String) (v : Val)
    (h : k ∉ keysOf r) : assignKey r k v = r ++ [(k, v)] := by
  have hany : r.any (fun kv => decide (kv.1 = k)) = false := by
    rw [List.any_eq_false]
    intro kv hkv
    simp only [decide_eq_true_eq]
    intro he
    exact h (he ▸ List.mem_map_of_mem Prod.fst hkv)
  simp [assignKey, hany]

theorem keysOf_assignKey_not_mem (r : JRec) (k : String) (v : Val)
    (h : k ∉ keysOf r) : keysOf (assignKey r k v) = keysOf r ++ [k] := by
  rw [assignKey_not_mem r k v h]
  simp [keysOf]

theorem frag_singleton (f : JRec) (k : String) (h : keysOf f = [k]) :
    ∃ v, f = [(k, v)] := by
  cases f with
  | nil => simp [keysOf] at h
  | cons kv rest =>
    have h1 : kv.1 = k ∧ keysOf rest = [] := by simpa [keysOf] using h
    have h2 : rest = [] := by
      have := h1.2
      simpa [keysOf] using this
    refine ⟨kv.2, ?_⟩
    cases kv with
    | mk a b =>
      simp only at h1
      simp [h1.1, h2]

theorem runSections_nil (resp : SUnit → Resp) (cur : JRec) (pubs : List JRec) :
    runSections resp [] cur pubs = ⟨cur, pubs, none⟩ := rfl

theorem runSections_cons_notes (resp : SUnit → Resp) (rest : List String)
    (cur : JRec) (pubs : List JRec) :
    runSections resp ("leaseNotes" :: rest) cur pubs =
      (match runNotes (fun nk => resp (SUnit.note nk)) noteKeys [] with
       | Except.error e => (⟨cur, pubs, some e⟩ : SchedResult)
       | Except.ok notesData =>
           runSections resp rest
             (assignKey cur "leaseNotes" (Val.obj notesData))
             (pubs ++ [assignKey cur "leaseNotes" (Val.obj notesData)])) := rfl

theorem runSections_cons_other (resp : SUnit → Resp) (k : String)
    (rest : List String) (cur : JRec) (pubs : List JRec)
    (hk : k ≠ "leaseNotes") :
    runSections resp (k :: rest) cur pubs =
      (match resp (SUnit.sec k) with
       | Resp.empty => (⟨cur, pubs, some (emptySectionMsg k)⟩ : SchedResult)
       | Resp.malformed => (⟨cur, pubs, some (invalidSectionMsg k)⟩ : SchedResult)
       | Resp.parsed frag =>
           runSections resp rest (assignObj cur frag)
             (pubs ++ [assignObj cur frag])) := by
  have h0 : runSections resp (k :: rest) cur pubs =
      (if k = "leaseNotes" then
        (match runNotes (fun nk => resp (SUnit.note nk)) noteKeys [] with
         | Except.error e => (⟨cur, pubs, some e⟩ : SchedResult)
         | Except.ok notesData =>
             runSections resp rest
               (assignKey cur "leaseNotes" (Val.obj notesData))
               (pubs ++ [assignKey cur "leaseNotes" (Val.obj notesData)]))
       else
        (match resp (SUnit.sec k) with
         | Resp.empty => (⟨cur, pubs, some (emptySectionMsg k)⟩ : SchedResult)
         | Resp.malformed =>
             (⟨cur, pubs, some (invalidSectionMsg k)⟩ : SchedResult)
         | Resp.parsed frag =>
             runSections resp rest (assignObj cur frag)
               (pubs ++ [assignObj cur frag]))) := rfl
  rw [h0, if_neg hk]

/-- Hoare-style invariant of the section loop: starting from a record whose
keys are `done` and any already-published snapshots, processing the
remaining sections publishes one snapshot per completed section, whose key
sets are exactly the successive prefixes — keys of sections not yet
processed never appear. -/
theorem runSections_published (resp : SUnit → Resp) (hshape : SecShaped resp) :
    ∀ (secs done : List String) (cur : JRec) (pubs : List JRec),
      keysOf cur = done → (done ++ secs).Nodup →
      ∃ n, n ≤ secs.length ∧
        (runSections resp secs cur pubs).published.map keysOf =
          pubs.map keysOf ++
            (List.range n).map (fun j => done ++ secs.take (j + 1)) := by
  intro secs
  induction secs with
  | nil =>
    intro done cur pubs hcur hnd
    exact ⟨0, Nat.le_refl 0, by simp [runSections_nil]⟩
  | cons k rest ih =>
    intro done cur pubs hcur hnd
    have hknotin : k ∉ done := by
      have h1 := List.nodup_middle.mp hnd
      have h2 := (List.nodup_cons.mp h1).1
      exact fun hk => h2 (List.mem_append_left rest hk)
    have hknotcur : k ∉ keysOf cur := by rw [hcur]; exact hknotin
    have hnd' : ((done ++ [k]) ++ rest).Nodup := by
      simpa [List.append_assoc] using hnd
    by_cases hk : k = "leaseNotes"
    · subst hk
      cases hnotes : runNotes (fun nk => resp (SUnit.note nk)) noteKeys [] with
      | error e =>
        refine ⟨0, Nat.zero_le _, ?_⟩
        simp [runSections_cons_notes, hnotes]
      | ok notes =>
        have hkeys' : keysOf (assignKey cur "leaseNotes" (Val.obj notes)) =
            done ++ ["leaseNotes"] := by
          rw [keysOf_assignKey_not_mem cur _ _ hknotcur, hcur]
        obtain ⟨n, hn, hpub⟩ := ih (done ++ ["leaseNotes"])
          (assignKey cur "leaseNotes" (Val.obj notes))
          (pubs ++ [assignKey cur "leaseNotes" (Val.obj notes)]) hkeys' hnd'
        refine ⟨n + 1, Nat.succ_le_succ hn, ?_⟩
        have hrun : runSections resp ("leaseNotes" :: rest) cur pubs =
            runSections resp rest (assignKey cur "leaseNotes" (Val.obj notes))
              (pubs ++ [assignKey cur "leaseNotes" (Val.obj notes)]) := by
          rw [runSections_cons_notes, hnotes]
        rw [hrun, hpub, List.map_append, List.range_succ_eq_map]
        rw [show (([assignKey cur "leaseNotes" (Val.obj notes)] : List JRec).map
            keysOf) = [done ++ ["leaseNotes"]] from by simp [hkeys']]
        rw [List.append_assoc]
        congr 1
        simp [List.map_cons, List.map_map, Function.comp_def,
          List.take_succ_cons, List.append_assoc]
    · cases hresp : resp (SUnit.sec k) with
      | empty =>
        refine ⟨0, Nat.zero_le _, ?_⟩
        rw [runSections_cons_other resp k rest cur pubs hk, hresp]
        simp
      | malformed =>
        refine ⟨0, Nat.zero_le _, ?_⟩
        rw [runSections_cons_other resp k rest cur pubs hk, hresp]
        simp
      | parsed f =>
        obtain ⟨v, rfl⟩ := frag_singleton f k (hshape k f hresp)
        have hkeys' : keysOf (assignKey cur k v) = done ++ [k] := by
          rw [keysOf_assignKey_not_mem cur _ _ hknotcur, hcur]
        obtain ⟨n, hn, hpub⟩ := ih (done ++ [k]) (assignKey cur k v)
          (pubs ++ [assignKey cur k v]) hkeys' hnd'
        refine ⟨n + 1, Nat.succ_le_succ hn, ?_⟩
        have hrun : runSections resp (k :: rest) cur pubs =
            runSections resp rest (assignKey cur k v)
              (pubs ++ [assignKey cur k v]) := by
          rw [runSections_cons_other resp k rest cur pubs hk, hresp]
          rfl
        rw [hrun, hpub, List.map_append, List.range_succ_eq_map]
        rw [show (([assignKey cur k v] : List JRec).map keysOf) =
            [done ++ [k]] from by simp [hkeys']]
        rw [List.append_assoc]
        congr 1
        simp [List.map_cons, List.map_map, Function.comp_def,
          List.take_succ_cons, List.append_assoc]

theorem runNotes_cons (resp : String → Resp) (k : String)
    (rest : List String) (acc : JRec) :
    runNotes resp (k :: rest) acc =
      (match resp k with
       | Resp.empty =>
           runNotes resp rest
             (assignKey acc k (if k = "Other" then Val.arr [] else notFoundVal))
       | Resp.malformed => Except.error (invalidNoteMsg k)
       | Resp.parsed frag => runNotes resp rest (assignObj acc frag)) := rfl

/-! ### Claim C2 — empty-response handling -/

/-- C2 counterexample: when the non-catch-all clause `securityDeposit`
returns empty text, the run does NOT fail hard — it finishes with no
error, publishes all 8 section snapshots, and resolves the clause to a
`"Not Found"` placeholder. -/
theorem c2_nonfatal_empty_note_counterexample :
    (runSchedule respEmptyNote).error = none
    ∧ (runSchedule respEmptyNote).published.length = 8
    ∧ lookupRec (notesOf (runSchedule respEmptyNote)) "securityDeposit" =
        some notFoundVal
    ∧ "securityDeposit" ≠ "Other" :=
  ⟨rfl, rfl, rfl, by decide⟩

/-- C2 amended: an empty response is fatal only for a whole-section unit
(the run stops there with that section's label, the published snapshots
untouched); for a `leaseNotes` clause unit the loop continues — the
catch-all `"Other"` resolves to an empty array, any other clause to a
`"Not Found"` placeholder — and a notes run without unparsable responses
always completes. -/
theorem c2_empty_response_policy :
    (∀ (resp : SUnit → Resp) (k : String) (rest : List String) (cur : JRec)
        (pubs : List JRec), k ≠ "leaseNotes" →
        resp (SUnit.sec k) = Resp.empty →
        runSections resp (k :: rest) cur pubs =
          ⟨cur, pubs, some (emptySectionMsg k)⟩)
    ∧ (∀ (resp : String → Resp) (k : String) (rest : List String) (acc : JRec),
        resp k = Resp.empty →
        runNotes resp (k :: rest) acc =
          runNotes resp rest
            (assignKey acc k (if k = "Other" then Val.arr [] else notFoundVal)))
    ∧ (∀ (resp : String → Resp) (keys : List String) (acc : JRec),
        (∀ k ∈ keys, resp k ≠ Resp.malformed) →
        ∃ r, runNotes resp keys acc = Except.ok r) := by
  refine ⟨?_, ?_, ?_⟩
  · intro resp k rest cur pubs hk hresp
    rw [runSections_cons_other resp k rest cur pubs hk, hresp]
  · intro resp k rest acc hresp
    rw [runNotes_cons, hresp]
  · intro resp keys
    induction keys with
    | nil => intro acc _; exact ⟨acc, rfl⟩
    | cons k rest ih =>
      intro acc h
      cases hr : resp k with
      | empty =>
        rcases ih (assignKey acc k
            (if k = "Other" then Val.arr [] else notFoundVal))
          (fun x hx => h x (List.mem_cons_of_mem k hx)) with ⟨r, hrr⟩
        exact ⟨r, by rw [runNotes_cons, hr]; exact hrr⟩
      | malformed => exact absurd hr (h k (by simp))
      | parsed f =>
        rcases ih (assignObj acc f)
          (fun x hx => h x (List.mem_cons_of_mem k hx)) with ⟨r, hrr⟩
        exact ⟨r, by rw [runNotes_cons, hr]; exact hrr⟩

/-- C2 witness: the three parts of the policy at concrete inputs — a
section unit with empty text fails hard with its label, the catch-all
clause recovers to an empty array, and an all-empty notes run completes. -/
theorem c2_empty_response_policy_witness :
    runSections respAllEmpty ["generalInformation"] [] [] =
      ⟨[], [], some (emptySectionMsg "generalInformation")⟩
    ∧ runNotes (fun _ => Resp.empty) ["Other"] [] =
        runNotes (fun _ => Resp.empty) []
          (assignKey [] "Other"
            (if "Other" = "Other" then Val.arr [] else notFoundVal))
    ∧ ∃ r, runNotes (fun _ => Resp.empty) noteKeys [] = Except.ok r :=
  ⟨c2_empty_response_policy.1 respAllEmpty "generalInformation" [] [] []
     (by decide) rfl,
   c2_empty_response_policy.2.1 (fun _ => Resp.empty) "Other" [] [] rfl,
   c2_empty_response_policy.2.2 (fun _ => Resp.empty) noteKeys []
     (fun _ _ h => Resp.noConfusion h)⟩

/-! ### Claim C3 — parse-failure handling -/

/-- C3 counterexample: clause `prepaidRent` returns unparsable text after
clause `securityDeposit` succeeded.  The run aborts with the
`Prepaid Rent` label, but the record exposed to the caller holds only the
five sections published before `leaseNotes` — the fragment merged for the
earlier successful `securityDeposit` unit is discarded, not exposed. -/
theorem c3_prior_fragments_not_exposed_counterexample :
    (runSchedule respBadNote).error = some (invalidNoteMsg "prepaidRent")
    ∧ invalidNoteMsg "prepaidRent" =
        "The AI model returned an invalid data format for the \"Prepaid Rent\" note."
    ∧ respBadNote (SUnit.note "securityDeposit") =
        Resp.parsed [("securityDeposit", Val.str "x")]
    ∧ (runSchedule respBadNote).published.map keysOf =
        [["generalInformation"],
         ["generalInformation", "leaseAmendmentsReviewed"],
         ["generalInformation", "leaseAmendmentsReviewed", "leaseTermAndDates"],
         ["generalInformation", "leaseAmendmentsReviewed", "leaseTermAndDates",
          "noticeAddresses"],
         ["generalInformation", "leaseAmendmentsReviewed", "leaseTermAndDates",
          "noticeAddresses", "billingAndCharges"]]
    ∧ lookupRec (runSchedule respBadNote).record "leaseNotes" = none :=
  ⟨rfl, rfl, rfl, rfl, rfl⟩

/-- C3 amended: an unparsable response is a hard failure attributed to the
unit's title-cased label, not retried, and no further unit runs — the
loop returns at once with the published snapshots exactly as they were
(so everything published before the failure stays exposed, while
fragments of clause units inside the still-unpublished `leaseNotes`
section are lost with the local accumulator). -/
theorem c3_parse_failure_policy :
    (∀ (resp : SUnit → Resp) (k : String) (rest : List String) (cur : JRec)
        (pubs : List JRec), k ≠ "leaseNotes" →
        resp (SUnit.sec k) = Resp.malformed →
        runSections resp (k :: rest) cur pubs =
          ⟨cur, pubs, some (invalidSectionMsg k)⟩)
    ∧ (∀ (resp : String → Resp) (k : String) (rest : List String) (acc : JRec),
        resp k = Resp.malformed →
        runNotes resp (k :: rest) acc = Except.error (invalidNoteMsg k))
    ∧ (∀ (resp : SUnit → Resp) (rest : List String) (cur : JRec)
        (pubs : List JRec) (e : String),
        runNotes (fun nk => resp (SUnit.note nk)) noteKeys [] =
          Except.error e →
        runSections resp ("leaseNotes" :: rest) cur pubs =
          ⟨cur, pubs, some e⟩) := by
  refine ⟨?_, ?_, ?_⟩
  · intro resp k rest cur pubs hk hresp
    rw [runSections_cons_other resp k rest cur pubs hk, hresp]
  · intro resp k rest acc hresp
    rw [runNotes_cons, hresp]
  · intro resp rest cur pubs e h
    rw [runSections_cons_notes, h]

/-- C3 witness: the three parts at concrete inputs, including the
`leaseNotes` run whose second clause is unparsable. -/
theorem c3_parse_failure_policy_witness :
    runSections (fun _ => Resp.malformed) ["generalInformation"] [] [] =
      ⟨[], [], some (invalidSectionMsg "generalInformation")⟩
    ∧ runNotes (fun _ => Resp.malformed) ["securityDeposit"] [] =
        Except.error (invalidNoteMsg "securityDeposit")
    ∧ runSections respBadNote ["leaseNotes"] [] [] =
        ⟨[], [], some (invalidNoteMsg "prepaidRent")⟩ :=
  ⟨c3_parse_failure_policy.1 (fun _ => Resp.malformed) "generalInformation"
     [] [] [] (by decide) rfl,
   c3_parse_failure_policy.2.1 (fun _ => Resp.malformed) "securityDeposit"
     [] [] rfl,
   c3_parse_failure_policy.2.2 respBadNote [] [] []
     (invalidNoteMsg "prepaidRent") rfl⟩

/-! ### Claim C4 — monotonic merge and publication granularity -/

/-- C4 counterexample: on a run where all 45 extraction units succeed, the
scheduler publishes only 8 snapshots — one per top-level section — so no
snapshot is published after each per-clause unit of the expanded
`leaseNotes` section. -/
theorem c4_no_per_clause_publication_counterexample :
    (runSchedule respAllGood).error = none
    ∧ extractionUnits.length = 45
    ∧ (runSchedule respAllGood).published.length = 8
    ∧ ¬ ((45 : Nat) ≤ 8) :=
  ⟨rfl, rfl, rfl, by decide⟩

/-- C4 amended: with schema-shaped section responses, the published
snapshots are exactly the prefixes of the processed sections: the k-th
snapshot holds exactly the top-level keys of the first k sections, never a
key of an unprocessed unit; publication happens per whole section (the
expanded section publishes once, after all its clause units). -/
theorem c4_monotonic_merge_per_section (resp : SUnit → Resp)
    (hshape : SecShaped resp) :
    ∃ n, n ≤ sectionKeys.length ∧
      (runSchedule resp).published.map keysOf =
        (List.range n).map (fun j => sectionKeys.take (j + 1)) := by
  obtain ⟨n, hn, h⟩ := runSections_published resp hshape sectionKeys [] [] []
    rfl (by decide)
  refine ⟨n, hn, ?_⟩
  simpa using h

theorem secShaped_respAllGood : SecShaped respAllGood := by
  intro k f h
  injection h with h1
  rw [← h1]
  rfl

/-- C4 witness: the per-section publication shape on the all-successful
run. -/
theorem c4_monotonic_merge_per_section_witness :
    SecShaped respAllGood
    ∧ ∃ n, n ≤ sectionKeys.length ∧
        (runSchedule respAllGood).published.map keysOf =
          (List.range n).map (fun j => sectionKeys.take (j + 1)) :=
  ⟨secShaped_respAllGood,
   c4_monotonic_merge_per_section respAllGood secShaped_respAllGood⟩

end LeaseAbs
